import Mathlib

/-!
# Verification of the dynamic schema compiler/loader (app/utils.py, app/services.py)

Shallow embedding of the schema-to-Pydantic-model compiler, the identifier
sanitizer, the description escaping, and the schema persistence/loading
services.  Python strings are modelled as `List Char`; Python `None` for the
optional `enum_values` / `children` attributes is identified with the empty
list, because the source only ever tests their truthiness (`if field.enum_values:`,
`if ... and field.children:`) and reads them through `or []`, under which
`None` and `[]` are indistinguishable.
-/

/-- Python strings are modelled as lists of characters. -/
abbrev Str := List Char

/-- The single-quote character (written via its code point to keep the
development plain ASCII). -/
def sqChar : Char := Char.ofNat 39

/-- `s.replace(c, r)` for a one-character pattern `c`: every occurrence of the
character `c` is replaced by the string `r`.  For one-character patterns
Python's `str.replace` scans left to right and is exactly this map. -/
def replaceChar : List Char → Char → List Char → List Char
  | [], _, _ => []
  | x :: xs, c, r => (if x = c then r else [x]) ++ replaceChar xs c r

/-- `escape_description` from app/utils.py: empty (falsy) input yields `""`,
otherwise the five chained `str.replace` calls, in source order: backslash,
double-quote, newline, carriage-return, tab. -/
def escape_description (d : Str) : Str :=
  if d = [] then []
  else
    replaceChar (replaceChar (replaceChar (replaceChar
      (replaceChar d '\\' ['\\', '\\'])
      '"' ['\\', '"'])
      '\n' ['\\', 'n'])
      '\r' ['\\', 'r'])
      '\t' ['\\', 't']

/-- Per-character view of the chained replaces of `escape_description`
(proved equal to the chain below); used to reason about the round trip. -/
def escChar (c : Char) : List Char :=
  if c = '\\' then ['\\', '\\']
  else if c = '"' then ['\\', '"']
  else if c = '\n' then ['\\', 'n']
  else if c = '\r' then ['\\', 'r']
  else if c = '\t' then ['\\', 't']
  else [c]

/-- The escapes a Python string literal understands among those the generator
can produce.  Escapes outside this table are left intact (two characters),
matching CPython, which keeps unknown escape sequences verbatim. -/
def unescapeChar (c : Char) : Option Char :=
  if c = '\\' then some '\\'
  else if c = '"' then some '"'
  else if c = sqChar then some sqChar
  else if c = 'n' then some '\n'
  else if c = 'r' then some '\r'
  else if c = 't' then some '\t'
  else none

/-- Interpret a string-literal body once, the way the Python parser reads the
characters between the quotes of the generated source.  Meaningful only for
bodies the tokenizer accepts; whether a body lexes at all is modelled
separately by `litBodyOk`. -/
def unescape : List Char → List Char
  | [] => []
  | [c] => [c]
  | c :: d :: rest =>
    if c = '\\' then
      match unescapeChar d with
      | some e => e :: unescape rest
      | none => c :: d :: unescape rest
    else c :: unescape (d :: rest)

/-- `value.replace("'", "\\'")` used for enum member values in
`ModelGenerator._generate_enum_model`: only the single quote is escaped. -/
def sqEscape (v : Str) : Str := replaceChar v sqChar ['\\', sqChar]

/-- The character substitution of `re.sub(r'[^A-Z0-9]', '_', key)`. -/
def substChar (c : Char) : Char :=
  if ('A' ≤ c ∧ c ≤ 'Z') ∨ ('0' ≤ c ∧ c ≤ '9') then c else '_'

/-- `re.sub(r'_+', '_', key)`: collapse runs of underscores to one. -/
def collapse : List Char → List Char
  | [] => []
  | [c] => [c]
  | c :: d :: rest =>
    if c = '_' ∧ d = '_' then collapse (d :: rest)
    else c :: collapse (d :: rest)

/-- `key.rstrip('_')`: drop all trailing underscores. -/
def rstrip : List Char → List Char
  | [] => []
  | c :: rest =>
    match rstrip rest with
    | [] => if c = '_' then [] else [c]
    | r => c :: r

/-- First character of a bare identifier (ASCII view of `str.isidentifier`;
exact on the `[A-Z0-9_]` alphabet that `clean_enum_key` produces). -/
def isIdentStart (c : Char) : Bool := c.isAlpha || c = '_'

/-- Continuation character of a bare identifier (ASCII view). -/
def isIdentChar (c : Char) : Bool := c.isAlphanum || c = '_'

/-- `str.isidentifier` restricted to ASCII, which is exact on the strings the
sanitizer feeds it (they consist of `[A-Z0-9_]` only). -/
def isIdentifier : Str → Bool
  | [] => false
  | c :: cs => isIdentStart c && cs.all isIdentChar

/-- `clean_enum_key` from app/utils.py.  `Char.toUpper` is the ASCII case map;
Python's `str.upper` agrees on ASCII, and any character it maps differently is
non-ASCII and so replaced by `_` in the next step either way (the lone
exceptions, exotic letters whose uppercase is ASCII, do not affect any claim
under study).  The `isinstance` guard is dropped: inputs are strings. -/
def clean_enum_key (value : Str) : Str :=
  let key1 : Str := "ENUM_".toList ++ value.map Char.toUpper
  let key2 : Str := key1.map substChar
  let key3 : Str := rstrip (collapse key2)
  if isIdentifier key3 then key3 else "ENUM_".toList ++ key3

/-- `SchemaField` from app/models.py.  `enum_values`/`children` collapse
Python's `None` with `[]` (see the file header).  `ftype` embeds the Python
attribute `type` (a reserved-feeling name kept distinct for clarity). -/
inductive SchemaField : Type where
  | mk (key : Str) (ftype : Str) (description : Str) (required : Bool)
       (enum_values : List Str) (children : List SchemaField)

/-- Field accessor: `field.key`. -/
def SchemaField.key : SchemaField → Str
  | .mk k _ _ _ _ _ => k

/-- Field accessor: `field.type`. -/
def SchemaField.ftype : SchemaField → Str
  | .mk _ t _ _ _ _ => t

/-- Field accessor: `field.description`. -/
def SchemaField.description : SchemaField → Str
  | .mk _ _ d _ _ _ => d

/-- Field accessor: `field.required`. -/
def SchemaField.required : SchemaField → Bool
  | .mk _ _ _ r _ _ => r

/-- Field accessor: `field.enum_values` (with `None` read as `[]`). -/
def SchemaField.enum_values : SchemaField → List Str
  | .mk _ _ _ _ ev _ => ev

/-- Field accessor: `field.children` (with `None` read as `[]`). -/
def SchemaField.children : SchemaField → List SchemaField
  | .mk _ _ _ _ _ cs => cs

/-- `ModelComponent` from app/utils.py: a generated class or enum. -/
structure ModelComponent : Type where
  name : Str
  code : Str
deriving DecidableEq

/-- `TYPE_MAPPING.get(field.type, "str")` from app/utils.py. -/
def typeMapping (t : Str) : Str :=
  if t = "string".toList then "str".toList
  else if t = "int".toList then "int".toList
  else if t = "boolean".toList then "bool".toList
  else if t = "float".toList then "float".toList
  else if t = "object".toList then "object".toList
  else if t = "array".toList then "array".toList
  else "str".toList

/-- `IMPORTS_TEMPLATE` from app/utils.py. -/
def IMPORTS_TEMPLATE : Str :=
  "from enum import Enum\nfrom typing import List, Optional\nfrom pydantic import BaseModel, Field\n".toList

/-- Python truthiness of a list-valued attribute: `[]` (and the `None` it
stands for) is falsy, anything else truthy. -/
def truthy {α : Type} : List α → Bool
  | [] => false
  | _ :: _ => true

/-- `ModelGenerator._get_field_type`: enum synthesis wins over everything,
then nested object / array-item names, then the scalar table. -/
def getFieldType (f : SchemaField) (parentName : Str) : Str :=
  if truthy f.enum_values then
    parentName ++ "_".toList ++ f.key ++ "_enum".toList
  else if f.ftype = "object".toList then
    parentName ++ "_".toList ++ f.key
  else if f.ftype = "array".toList then
    "List[".toList ++ parentName ++ "_".toList ++ f.key ++ "_item]".toList
  else typeMapping f.ftype

/-- `ModelGenerator._generate_field_definition`: optional wrapping, escaped
description, and the `default=None` tail for optional fields. -/
def generateFieldDefinition (f : SchemaField) (fieldType : Str) : Str :=
  let ft : Str := if f.required then fieldType else "Optional[".toList ++ fieldType ++ "]".toList
  let defaultPart : Str := if f.required then [] else ", default=None".toList
  f.key ++ ": ".toList ++ ft ++ " = Field(description=".toList ++ ['"']
    ++ escape_description f.description ++ ['"'] ++ defaultPart ++ ")".toList

/-- `ModelGenerator._get_nested_model_name`: `{parent}_{key}`, with an
`_item` suffix for arrays. -/
def getNestedModelName (f : SchemaField) (parentName : Str) : Str :=
  let base : Str := parentName ++ "_".toList ++ f.key
  if f.ftype = "array".toList then base ++ "_item".toList else base

/-- `ModelGenerator._generate_enum_model`: one member line per value, member
identifiers via `clean_enum_key`, member values single-quote-escaped only. -/
def generateEnumModel (f : SchemaField) (parentName : Str) : ModelComponent :=
  let enumName : Str := parentName ++ "_".toList ++ f.key ++ "_enum".toList
  let enumLines : List Str := f.enum_values.map fun v =>
    "    ".toList ++ clean_enum_key v ++ " = ".toList ++ [sqChar] ++ sqEscape v ++ [sqChar]
  { name := enumName
    code := "class ".toList ++ enumName ++ "(str, Enum):\n".toList
      ++ List.intercalate "\n".toList enumLines }

/-- `ModelGenerator._generate_nested_class`: a BaseModel class for the
field's children, field types resolved against the nested scope name. -/
def generateNestedClass (f : SchemaField) (nestedName : Str) : ModelComponent :=
  let fieldsCode : List Str := f.children.map fun child =>
    "    ".toList ++ generateFieldDefinition child (getFieldType child nestedName)
  { name := nestedName
    code := "class ".toList ++ nestedName ++ "(BaseModel):\n".toList
      ++ List.intercalate "\n".toList fieldsCode }

mutual
/-- The components one loop iteration of `_generate_nested_models`
contributes for a single field: first the synthesized enum (when
`enum_values` is truthy), then — when the kind is `object`/`array` and
`children` is truthy — the recursively generated descendants followed by the
field's own nested class. -/
def fieldModels : SchemaField → Str → List ModelComponent
  | SchemaField.mk k t d r ev cs, parentName =>
    let f := SchemaField.mk k t d r ev cs
    (if truthy ev then [generateEnumModel f parentName] else [])
      ++ (if (t = "object".toList ∨ t = "array".toList) ∧ truthy cs = true then
            nestedModels cs (getNestedModelName f parentName)
              ++ [generateNestedClass f (getNestedModelName f parentName)]
          else [])

/-- `ModelGenerator._generate_nested_models`: the per-field contributions
concatenated in input field order. -/
def nestedModels : List SchemaField → Str → List ModelComponent
  | [], _ => []
  | f :: rest, parentName => fieldModels f parentName ++ nestedModels rest parentName
end

/-- `ModelGenerator._generate_main_model`: the root class over the top-level
field list. -/
def generateMainModel (schema_fields : List SchemaField) (model_name : Str) : Str :=
  let fieldsCode : List Str := schema_fields.map fun f =>
    "    ".toList ++ generateFieldDefinition f (getFieldType f model_name)
  "class ".toList ++ model_name ++ "(BaseModel):\n".toList
    ++ List.intercalate "\n".toList fieldsCode

/-- `ModelGenerator.generate` / `generate_pydantic_model_code`: imports,
then every nested component in order, then the main model last, joined by
blank lines. -/
def generate_pydantic_model_code (schema_fields : List SchemaField) (model_name : Str) : Str :=
  List.intercalate "\n\n".toList
    (IMPORTS_TEMPLATE
      :: (nestedModels schema_fields model_name).map ModelComponent.code
      ++ [generateMainModel schema_fields model_name])

/-- The synthesized type name a field definition refers to, read off the
branches of `_get_field_type`: the enum name, the nested object name, or the
array item name; `none` for scalar fields (whose types come from the import
preamble / builtins, not from generated declarations). -/
def synthRef (f : SchemaField) (parentName : Str) : Option Str :=
  if truthy f.enum_values then
    some (parentName ++ "_".toList ++ f.key ++ "_enum".toList)
  else if f.ftype = "object".toList then
    some (parentName ++ "_".toList ++ f.key)
  else if f.ftype = "array".toList then
    some (parentName ++ "_".toList ++ f.key ++ "_item".toList)
  else none

mutual
/-- Declaration skeleton of one field of `_generate_nested_models`: for
every emitted component, its declared name paired with the synthesized type
names its body refers to (an enum body refers to none; a nested class refers
to the `synthRef` of each of its children).  Mirrors `fieldModels` component
for component, in the same order. -/
def fieldDecls : SchemaField → Str → List (Str × List Str)
  | SchemaField.mk k t d r ev cs, parentName =>
    let f := SchemaField.mk k t d r ev cs
    (if truthy ev then
        [(parentName ++ "_".toList ++ k ++ "_enum".toList, ([] : List Str))]
      else [])
      ++ (if (t = "object".toList ∨ t = "array".toList) ∧ truthy cs = true then
            declsOf cs (getNestedModelName f parentName)
              ++ [(getNestedModelName f parentName,
                   cs.filterMap fun c => synthRef c (getNestedModelName f parentName))]
          else [])

/-- Declaration skeleton of the emitted nested components, in emission
order. -/
def declsOf : List SchemaField → Str → List (Str × List Str)
  | [], _ => []
  | f :: rest, parentName => fieldDecls f parentName ++ declsOf rest parentName
end

/-- Every declaration of the generated program in emission order: the nested
components, then the root class (emitted last), each with its references. -/
def allDecls (fields : List SchemaField) (rootName : Str) : List (Str × List Str) :=
  declsOf fields rootName ++ [(rootName, fields.filterMap fun f => synthRef f rootName)]

/-- Forward-reference checker: scanning the declarations in order, every
reference of each declaration must name something already declared (or in
`pre`, the names assumed declared before the scan starts). -/
def checkFF (pre : List Str) : List (Str × List Str) → Bool
  | [] => true
  | (n, refs) :: rest => refs.all (fun rf => pre.contains rf) && checkFF (pre ++ [n]) rest

mutual
/-- A field is well formed when, if its kind is `object`/`array`, its
children list is non-empty (the proviso of the output guarantee), and all
its children are well formed. -/
def wfField : SchemaField → Bool
  | .mk _ t _ _ _ cs =>
    (if t = "object".toList ∨ t = "array".toList then truthy cs else true) && wfList cs

/-- All fields of a list are well formed. -/
def wfList : List SchemaField → Bool
  | [] => true
  | f :: rest => wfField f && wfList rest
end

/-- `SchemaInfo` from app/models.py (the persisted metadata record). -/
structure SchemaInfo : Type where
  id : Str
  name : Str
  description : Str
  created_at : Str
deriving DecidableEq

/-- The persisted program artifact (the `{id}.py` file): its text is
`sourceText`; since the text is always produced by the generator, the
generating field list and root name are carried alongside so that executing
the module can be modelled structurally (a text-level Python interpreter is
out of scope). -/
structure ModuleSource : Type where
  fields : List SchemaField
  rootName : Str
  sourceText : Str

/-- A value bound in an executed module's namespace: a synthesized enum
class (member identifier paired with the literal body of its value) or a
BaseModel class (field key paired with its required flag). -/
inductive PyVal : Type where
  | enumTy (members : List (Str × Str))
  | classTy (fieldsOf : List (Str × Bool))
deriving DecidableEq

mutual
/-- Namespace bindings created by the component statements of one field
(see `moduleSyms`). -/
def fieldSyms : SchemaField → Str → List (Str × PyVal)
  | SchemaField.mk k t d r ev cs, parentName =>
    let f := SchemaField.mk k t d r ev cs
    (if truthy ev then
        [(parentName ++ "_".toList ++ k ++ "_enum".toList,
          PyVal.enumTy (ev.map fun v => (clean_enum_key v, sqEscape v)))]
      else [])
      ++ (if (t = "object".toList ∨ t = "array".toList) ∧ truthy cs = true then
            moduleSyms cs (getNestedModelName f parentName)
              ++ [(getNestedModelName f parentName,
                   PyVal.classTy (cs.map fun c => (c.key, c.required)))]
          else [])

/-- The class/enum bindings executing the generated nested components
creates, in definition order; mirrors `nestedModels` binding for binding. -/
def moduleSyms : List SchemaField → Str → List (Str × PyVal)
  | [], _ => []
  | f :: rest, parentName => fieldSyms f parentName ++ moduleSyms rest parentName
end

/-- Scanner for the body of a generated `q`-quoted string literal: the
Python tokenizer accepts the literal (terminating exactly at the quote the
generator appends) iff this returns `true`.  A backslash consumes the next
character whatever it is (unknown escapes and backslash-newline
continuations are legal); a lone trailing backslash would escape the
closing quote; a raw quote, newline or carriage return ends or breaks the
literal early. -/
def litBodyOk (q : Char) : Str → Bool
  | [] => true
  | c :: rest =>
    if c = '\\' then
      match rest with
      | [] => false
      | _ :: rest2 => litBodyOk q rest2
    else if c = q ∨ c = '\n' ∨ c = '\r' then false
    else litBodyOk q rest

/-- The Python keywords (a field key equal to one is a SyntaxError in the
generated `key: type = Field(...)` line). -/
def pyKeywords : List Str :=
  (["False", "None", "True", "and", "as", "assert", "async", "await", "break",
    "class", "continue", "def", "del", "elif", "else", "except", "finally",
    "for", "from", "global", "if", "import", "in", "is", "lambda", "nonlocal",
    "not", "or", "pass", "raise", "return", "try", "while", "with",
    "yield"] : List String).map String.toList

/-- Names a field key must avoid for the generated module to execute: the
bindings of the import preamble and the builtins later field lines consult
(`Field(...)` calls and scalar annotations resolve in the class namespace
first, so a field of one of these names breaks subsequent lines), plus the
attribute surface of the pydantic `BaseModel` base class, which raises on
shadowing field names.  The pydantic portion stands for the attribute set
of the installed pydantic version. -/
def reservedNames : List Str :=
  (["Enum", "List", "Optional", "BaseModel", "Field",
    "str", "int", "bool", "float", "object",
    "copy", "dict", "json", "schema", "construct", "validate",
    "parse_obj", "parse_raw", "parse_file", "from_orm", "schema_json",
    "update_forward_refs",
    "model_config", "model_fields", "model_computed_fields", "model_extra",
    "model_fields_set", "model_construct", "model_copy", "model_dump",
    "model_dump_json", "model_json_schema", "model_parametrized_name",
    "model_post_init", "model_rebuild", "model_validate",
    "model_validate_json", "model_validate_strings"] : List String).map String.toList

/-- A field key the generated program can execute with: a plain ASCII
identifier starting with a letter (pydantic rejects leading-underscore
field names), not a Python keyword, and not shadowing a name the generated
module or its base classes bind. -/
def keyOk (k : Str) : Bool :=
  (match k with
   | [] => false
   | c :: rest => c.isAlpha && rest.all isIdentChar)
    && !(pyKeywords.contains k) && !(reservedNames.contains k)

/-- No duplicates (Python's `Enum` raises `TypeError` when a member
identifier is reused, so sanitizer collisions abort execution). -/
def nodupStr : List Str → Bool
  | [] => true
  | x :: xs => !(xs.contains x) && nodupStr xs

mutual
/-- Whether the program text generated for one field executes: its key must
be usable (`keyOk`), its description's escaped literal must lex (always
true — proved below — the check is kept so the model does not assume it),
an emitted enum needs lexable member literals and distinct sanitized member
identifiers, and an `object`/`array` field needs a non-empty, recursively
executable children list (a childless composite leaves its referenced type
undefined: `NameError`).  Mirrors, guard for guard, what
`_generate_nested_models` / `_generate_main_model` emit. -/
def fieldSrcOk : SchemaField → Bool
  | SchemaField.mk k t d _ ev cs =>
    keyOk k
      && litBodyOk '"' (escape_description d)
      && (if truthy ev then
            ev.all (fun v => litBodyOk sqChar (sqEscape v))
              && nodupStr (ev.map clean_enum_key)
          else true)
      && (if t = "object".toList ∨ t = "array".toList then
            truthy cs && fieldsSrcOk cs
          else true)

/-- All fields of a list generate executable program text. -/
def fieldsSrcOk : List SchemaField → Bool
  | [] => true
  | f :: rest => fieldSrcOk f && fieldsSrcOk rest
end

/-- Whether executing a stored module's source text succeeds: the root
class needs a non-empty body (an empty `class X(BaseModel):` is a
SyntaxError) and an identifier root name, and every field's generated text
must execute (`fieldsSrcOk`).  Derived class names are `_`-joined
extensions of the root name and usable keys, hence identifiers, and no
generated name equals a keyword or a preamble binding (all of which lack
an underscore), so these checks cover the class headers too. -/
def execOk (m : ModuleSource) : Bool :=
  truthy m.fields && isIdentifier m.rootName && fieldsSrcOk m.fields

/-- Executing a stored module, `spec.loader.exec_module` in the source:
when the generated text parses and executes (`execOk`), every class
statement binds its name in the module namespace in order, the root class
(emitted last) binding last; otherwise execution raises (SyntaxError from
unusable keys or broken literals, NameError from a childless composite's
dangling reference, TypeError from duplicate enum members) and the caller
sees the failure. -/
def execModule (m : ModuleSource) : Except Unit (List (Str × PyVal)) :=
  if execOk m then
    Except.ok (moduleSyms m.fields m.rootName
      ++ [(m.rootName, PyVal.classTy (m.fields.map fun f => (f.key, f.required)))])
  else Except.error ()

/-- `getattr(module, name)`: in an executed namespace the latest binding of
a name wins, so the bindings are folded left with later pairs shadowing. -/
def getattrLast (syms : List (Str × PyVal)) (n : Str) : Option PyVal :=
  syms.foldl (fun acc p => if p.1 = n then some p.2 else acc) none

/-- The two flat-file artifact stores under `SCHEMAS_DIR`, keyed by schema
id: `{id}.py` program texts and `{id}.meta.json` metadata. -/
structure Storage : Type where
  progs : List (Str × ModuleSource)
  metas : List (Str × SchemaInfo)

/-- Read a keyed artifact (the most recent write of that key). -/
def lookupKey {α : Type} : List (Str × α) → Str → Option α
  | [], _ => none
  | (k, v) :: rest, k' => if k = k' then some v else lookupKey rest k'

/-- Write a keyed artifact; the newest write shadows older ones, matching
file overwrite semantics under `lookupKey`/`eraseKey`. -/
def setKey {α : Type} (l : List (Str × α)) (k : Str) (v : α) : List (Str × α) :=
  (k, v) :: l

/-- Remove a keyed artifact (file deletion). -/
def eraseKey {α : Type} (l : List (Str × α)) (k : Str) : List (Str × α) :=
  l.filter fun p => if p.1 = k then false else true

/-- `schema_id.replace('-', '_')`, the id normalization shared by
`create_schema` and `load_schema_model`. -/
def normalizeId (schemaId : Str) : Str := replaceChar schemaId '-' ['_']

/-- An `HTTPException`: status code and detail message. -/
structure HErr : Type where
  status : Nat
  detail : Str
deriving DecidableEq

/-- `SchemaService.create_schema` from app/services.py.  The generated uuid
and the current time are environment inputs and appear as parameters; the
root type name is `{name}_{schema_id with '-' replaced by '_'}`; both
artifacts are written and the id returned.  The try/except wrapper has no
failing operation left in the model (file I/O is the storage update). -/
def create_schema (st : Storage) (name description : Str) (fields : List SchemaField)
    (schemaId createdAt : Str) : Storage × Str :=
  let modelName : Str := name ++ "_".toList ++ normalizeId schemaId
  let modelCode : Str := generate_pydantic_model_code fields modelName
  let m : ModuleSource := ⟨fields, modelName, modelCode⟩
  (⟨setKey st.progs schemaId m, setKey st.metas schemaId ⟨schemaId, name, description, createdAt⟩⟩,
   schemaId)

/-- The process-wide `sys.modules` table threaded through the services. -/
abbrev SysModules := List (Str × ModuleSource)

/-- `SchemaService.load_schema_model` from app/services.py: 404 when either
artifact is missing; otherwise the module is registered under
`schema_{schema_id}` in `sys.modules` (before execution, never removed), the
program is executed — a failing execution is caught and wrapped as a 500 —
and `{metadata.name}_{schema_id.replace('-','_')}` is looked up in the
module; a missing attribute is likewise caught and wrapped as a 500 (the
Python messages are abstracted to a fixed detail string no claim depends
on). -/
def load_schema_model (st : Storage) (sysModules : SysModules) (schemaId : Str) :
    (Except HErr (PyVal × SchemaInfo)) × SysModules :=
  match lookupKey st.progs schemaId, lookupKey st.metas schemaId with
  | some m, some meta =>
    let sysModules' := setKey sysModules ("schema_".toList ++ schemaId) m
    match execModule m with
    | Except.error _ => (.error ⟨500, "Error loading schema".toList⟩, sysModules')
    | Except.ok syms =>
      let modelName := meta.name ++ "_".toList ++ normalizeId schemaId
      match getattrLast syms modelName with
      | some v => (.ok (v, meta), sysModules')
      | none => (.error ⟨500, "Error loading schema".toList⟩, sysModules')
  | _, _ => (.error ⟨404, "Schema not found: ".toList ++ schemaId⟩, sysModules)

/-- Modelled from the spec: `SchemaService.delete_schema` is called by the
DELETE endpoint in app/main.py but its body is not among the source files
under src/; per the spec's API surface, "delete schema → removes both
artifacts". -/
def delete_schema (st : Storage) (schemaId : Str) : Storage :=
  ⟨eraseKey st.progs schemaId, eraseKey st.metas schemaId⟩

/-- `ExtractRequest` from app/models.py (text bound, key format validation
are upstream request validation, not used by the claims under study). -/
structure ExtractRequest : Type where
  text : Str
  schema_id : Option Str
  fields : Option (List SchemaField)
  api_key : Str

/-- Python truthiness of the optional `schema_id`: `None` and `""` falsy. -/
def truthyOptStr : Option Str → Bool
  | none => false
  | some s => truthy s

/-- Python truthiness of the optional `fields`: `None` and `[]` falsy. -/
def truthyOptFields : Option (List SchemaField) → Bool
  | none => false
  | some fs => truthy fs

/-- `ExtractionService.extract_information` from app/services.py.  The LLM
extractor pipeline (ChatOpenAI + trustcall) is the external collaborator and
appears as the parameter `collab`, already returning its HTTP-mapped result
(success list, or 429/401/500 per the substring classification in the
source's except clause); an `HTTPException` raised before it — notably the
400 when neither `schema_id` nor `fields` is truthy — is re-raised
unchanged.  `tempId` is the generated uuid for the direct-fields path, whose
temporary module is written into `sys.modules` only after `exec` of its code
succeeds (the source runs `exec` first, then assigns `sys.modules`); a
failing `exec` or `getattr` falls to the generic handler as a 500 whose
message is abstracted to an empty detail. -/
def extract_information (st : Storage) (sysModules : SysModules) (req : ExtractRequest)
    (tempId : Str) (collab : PyVal → Str → Except HErr (List Str)) :
    (Except HErr (List Str)) × SysModules :=
  if truthyOptStr req.schema_id then
    match load_schema_model st sysModules (req.schema_id.getD []) with
    | (Except.ok (v, _), sm') => (collab v req.text, sm')
    | (Except.error e, sm') => (Except.error e, sm')
  else if truthyOptFields req.fields then
    let fs := req.fields.getD []
    let tempName : Str := "TempModel_".toList ++ normalizeId tempId
    let m : ModuleSource := ⟨fs, tempName, generate_pydantic_model_code fs tempName⟩
    match execModule m with
    | Except.error _ => (Except.error ⟨500, []⟩, sysModules)
    | Except.ok syms =>
      let sm' := setKey sysModules tempName m
      match getattrLast syms tempName with
      | some v => (collab v req.text, sm')
      | none => (Except.error ⟨500, []⟩, sm')
  else
    (Except.error ⟨400, "Either schema_id or fields must be provided".toList⟩, sysModules)

/-- Equality of loader results is decidable (both payloads have decidable
equality), so concrete load outcomes can be checked by evaluation. -/
instance instDecEqExcept {ε α : Type} [DecidableEq ε] [DecidableEq α] :
    DecidableEq (Except ε α) := fun x y =>
  match x, y with
  | Except.error a, Except.error b =>
    if h : a = b then isTrue (by rw [h]) else isFalse (fun hh => by cases hh; exact h rfl)
  | Except.ok a, Except.ok b =>
    if h : a = b then isTrue (by rw [h]) else isFalse (fun hh => by cases hh; exact h rfl)
  | Except.error _, Except.ok _ => isFalse (fun hh => by cases hh)
  | Except.ok _, Except.error _ => isFalse (fun hh => by cases hh)

lemma replaceChar_append (l1 l2 : Str) (c : Char) (r : Str) :
    replaceChar (l1 ++ l2) c r = replaceChar l1 c r ++ replaceChar l2 c r := by
  induction l1 with
  | nil => simp [replaceChar]
  | cons x xs ih => simp [replaceChar, ih]

/-- The five chained replaces of `escape_description` without its empty-input
short-circuit (on `[]` they agree anyway). -/
def escapeCore (d : Str) : Str :=
  replaceChar (replaceChar (replaceChar (replaceChar
    (replaceChar d '\\' ['\\', '\\'])
    '"' ['\\', '"'])
    '\n' ['\\', 'n'])
    '\r' ['\\', 'r'])
    '\t' ['\\', 't']

lemma escape_description_eq_core (d : Str) : escape_description d = escapeCore d := by
  cases d with
  | nil => simp [escape_description, escapeCore, replaceChar]
  | cons x xs => simp [escape_description, escapeCore]

lemma escapeCore_cons (x : Char) (xs : Str) :
    escapeCore (x :: xs) = escChar x ++ escapeCore xs := by
  show escapeCore (x :: xs) = escChar x ++ escapeCore xs
  unfold escapeCore
  rw [show replaceChar (x :: xs) '\\' ['\\', '\\']
      = (if x = '\\' then ['\\', '\\'] else [x]) ++ replaceChar xs '\\' ['\\', '\\'] from rfl]
  rw [replaceChar_append, replaceChar_append, replaceChar_append, replaceChar_append]
  by_cases h1 : x = '\\'
  · subst h1; congr 1
  · by_cases h2 : x = '"'
    · subst h2; congr 1
    · by_cases h3 : x = '\n'
      · subst h3; congr 1
      · by_cases h4 : x = '\r'
        · subst h4; congr 1
        · by_cases h5 : x = '\t'
          · subst h5; congr 1
          · simp [replaceChar, escChar, h1, h2, h3, h4, h5]

lemma escapeCore_eq_join (d : Str) : escapeCore d = (d.map escChar).flatten := by
  induction d with
  | nil => simp [escapeCore, replaceChar]
  | cons x xs ih => rw [escapeCore_cons, ih]; simp

lemma unescape_cons_ne (x : Char) (l : Str) (hx : x ≠ '\\') :
    unescape (x :: l) = x :: unescape l := by
  cases l with
  | nil => simp [unescape]
  | cons d rest => rw [unescape, if_neg hx]

lemma unescape_escChar (x : Char) (xs : Str) :
    unescape (escChar x ++ xs) = x :: unescape xs := by
  by_cases h1 : x = '\\'
  · subst h1; exact rfl
  · by_cases h2 : x = '"'
    · subst h2; exact rfl
    · by_cases h3 : x = '\n'
      · subst h3; exact rfl
      · by_cases h4 : x = '\r'
        · subst h4; exact rfl
        · by_cases h5 : x = '\t'
          · subst h5; exact rfl
          · rw [show escChar x = [x] from by simp [escChar, h1, h2, h3, h4, h5]]
            exact unescape_cons_ne x xs h1

lemma unescape_escapeCore (d : Str) : unescape (escapeCore d) = d := by
  induction d with
  | nil => simp [escapeCore, replaceChar, unescape]
  | cons x xs ih => rw [escapeCore_cons, unescape_escChar, ih]

/-- C7: the escaping routine applies its five substitutions in the source
order backslash, double-quote, newline, carriage-return, tab (the first
conjunct: the chain acts on every character independently, so a backslash
introduced by an earlier substitution is never re-escaped by a later one),
and unescaping the output once, as the Python parser reads a double-quoted
string literal, reproduces the original description exactly. -/
theorem C7_escape_description_round_trip (d : Str) :
    escape_description d = (d.map escChar).flatten ∧
      unescape (escape_description d) = d := by
  rw [escape_description_eq_core]
  exact ⟨escapeCore_eq_join d, unescape_escapeCore d⟩

lemma substChar_identChar (c : Char) : isIdentChar (substChar c) = true := by
  unfold substChar
  by_cases h : ('A' ≤ c ∧ c ≤ 'Z') ∨ ('0' ≤ c ∧ c ≤ '9')
  · rw [if_pos h]
    rcases h with ⟨h1, h2⟩ | ⟨h1, h2⟩
    · have : c.isUpper = true := by
        simp [Char.isUpper]
        exact ⟨h1, h2⟩
      simp [isIdentChar, Char.isAlphanum, Char.isAlpha, this]
    · have : c.isDigit = true := by
        simp [Char.isDigit]
        exact ⟨h1, h2⟩
      simp [isIdentChar, Char.isAlphanum, this]
  · rw [if_neg h]; decide

theorem mem_collapse : ∀ (l : Str) (x : Char), x ∈ collapse l → x ∈ l
  | [], x, h => by simp [collapse] at h
  | [c], x, h => by simpa [collapse] using h
  | c :: d :: rest, x, h => by
    by_cases hcd : c = '_' ∧ d = '_'
    · rw [collapse, if_pos hcd] at h
      exact List.mem_cons_of_mem _ (mem_collapse (d :: rest) x h)
    · rw [collapse, if_neg hcd] at h
      rcases List.mem_cons.mp h with rfl | h2
      · exact List.mem_cons_self _ _
      · exact List.mem_cons_of_mem _ (mem_collapse (d :: rest) x h2)

theorem mem_rstrip : ∀ (l : Str) (x : Char), x ∈ rstrip l → x ∈ l
  | [], x, h => by simp [rstrip] at h
  | c :: rest, x, h => by
    rw [rstrip] at h
    cases hr : rstrip rest with
    | nil =>
      rw [hr] at h
      by_cases hc : c = '_'
      · simp [hc] at h
      · rw [if_neg hc] at h
        rcases List.mem_singleton.mp h with rfl
        exact List.mem_cons_self _ _
    | cons a as =>
      rw [hr] at h
      rcases List.mem_cons.mp h with rfl | h2
      · exact List.mem_cons_self _ _
      · exact List.mem_cons_of_mem _ (mem_rstrip rest x (hr ▸ h2))

lemma rstrip_cons_shape (c : Char) (l : Str) (hc : c ≠ '_') :
    rstrip (c :: l) = c :: rstrip l ∨ rstrip (c :: l) = [c] := by
  rw [rstrip]
  cases hr : rstrip l with
  | nil => right; rw [if_neg hc]
  | cons a as => left; rfl

lemma collapse_cons_ne (c d : Char) (rest : Str) (h : ¬(c = '_' ∧ d = '_')) :
    collapse (c :: d :: rest) = c :: collapse (d :: rest) := by
  rw [collapse, if_neg h]

lemma identifier_of_rstrip_cons (c : Char) (l : Str)
    (hstart : isIdentStart c = true) (hc : c ≠ '_')
    (hl : ∀ x ∈ l, isIdentChar x = true) :
    rstrip (c :: l) ≠ [] ∧ isIdentifier (rstrip (c :: l)) = true := by
  rcases rstrip_cons_shape c l hc with h | h
  · rw [h]
    refine ⟨List.cons_ne_nil _ _, ?_⟩
    simp only [isIdentifier, hstart, Bool.true_and]
    exact List.all_eq_true.mpr fun x hx => hl x (mem_rstrip l x hx)
  · rw [h]
    exact ⟨List.cons_ne_nil _ _, by simp [isIdentifier, hstart]⟩

lemma clean_enum_key_shape (v : Str) :
    clean_enum_key v ≠ [] ∧ isIdentifier (clean_enum_key v) = true := by
  have hkey2 : ("ENUM_".toList ++ v.map Char.toUpper).map substChar
      = 'E' :: 'N' :: 'U' :: 'M' :: '_' :: ((v.map Char.toUpper).map substChar) := by
    rw [List.map_append]
    rw [show List.map substChar "ENUM_".toList = "ENUM_".toList from by decide]
    rfl
  set tail : Str := (v.map Char.toUpper).map substChar with htail
  have hcoll : collapse ('E' :: 'N' :: 'U' :: 'M' :: '_' :: tail)
      = 'E' :: 'N' :: 'U' :: 'M' :: collapse ('_' :: tail) := by
    rw [collapse_cons_ne 'E' 'N' _ (by decide), collapse_cons_ne 'N' 'U' _ (by decide),
        collapse_cons_ne 'U' 'M' _ (by decide), collapse_cons_ne 'M' '_' _ (by decide)]
  have hmem : ∀ x ∈ ('N' :: 'U' :: 'M' :: collapse ('_' :: tail) : Str),
      isIdentChar x = true := by
    intro x hx
    rcases List.mem_cons.mp hx with rfl | hx
    · decide
    rcases List.mem_cons.mp hx with rfl | hx
    · decide
    rcases List.mem_cons.mp hx with rfl | hx
    · decide
    rcases List.mem_cons.mp (mem_collapse _ _ hx) with rfl | hx
    · decide
    · rcases List.mem_map.mp hx with ⟨y, _, rfl⟩
      exact substChar_identChar y
  have hmain := identifier_of_rstrip_cons 'E' ('N' :: 'U' :: 'M' :: collapse ('_' :: tail))
    (by decide) (by decide) hmem
  have hkey3 : rstrip (collapse (("ENUM_".toList ++ v.map Char.toUpper).map substChar))
      = rstrip ('E' :: 'N' :: 'U' :: 'M' :: collapse ('_' :: tail)) := by
    rw [hkey2, hcoll]
  simp only [clean_enum_key]
  rw [hkey3, if_pos hmain.2]
  exact hmain

/-- C8: the enum-member sanitizer is a total deterministic function, its
definition follows the uppercase / `ENUM_`-prefix / substitute / collapse /
strip / re-prefix transform of `clean_enum_key`, it always returns a
non-empty valid identifier, and on the inputs singled out by the spec it
returns the expected concrete identifiers. -/
theorem C8_clean_enum_key_total_identifier :
    (∀ v : Str, clean_enum_key v ≠ [] ∧ isIdentifier (clean_enum_key v) = true) ∧
      clean_enum_key [] = "ENUM".toList ∧
      clean_enum_key "3-d".toList = "ENUM_3_D".toList ∧
      clean_enum_key "café".toList = "ENUM_CAF".toList ∧
      clean_enum_key "VALID_NAME".toList = "ENUM_VALID_NAME".toList :=
  ⟨clean_enum_key_shape, by decide, by decide, by decide, by decide⟩

/-- C4 counterexample: compiling an empty FieldSpec list does not fail with
any error — `generate_pydantic_model_code` returns ordinary source text (a
root class with an empty body) and `create_schema` succeeds, persisting both
artifacts and returning the id.  No `ValidationError` path exists. -/
theorem C4_counterexample :
    generate_pydantic_model_code [] "M".toList
      = "from enum import Enum\nfrom typing import List, Optional\nfrom pydantic import BaseModel, Field\n\n\nclass M(BaseModel):\n".toList
      ∧ (create_schema ⟨[], []⟩ "M".toList "d".toList [] "sid".toList "t".toList).2 = "sid".toList
      ∧ (lookupKey (create_schema ⟨[], []⟩ "M".toList "d".toList [] "sid".toList "t".toList).1.progs
          "sid".toList).isSome = true
      ∧ (lookupKey (create_schema ⟨[], []⟩ "M".toList "d".toList [] "sid".toList "t".toList).1.metas
          "sid".toList).isSome = true := by
  decide

/-- C4 amended: compile does not fail on an empty FieldSpec list; it
succeeds, emitting only the import preamble and a root class header with an
empty body (source text that is not a loadable program, but no
`ValidationError` is raised). -/
theorem C4_empty_fields_compile_succeeds (model_name : Str) :
    generate_pydantic_model_code [] model_name
      = IMPORTS_TEMPLATE ++ "\n\n".toList ++ "class ".toList ++ model_name
          ++ "(BaseModel):\n".toList := by
  simp [generate_pydantic_model_code, nestedModels, generateMainModel,
    List.intercalate, List.intersperse]

/-- C3 counterexample: for an `object` field with an empty children list,
compile emits no composite type at all — `nestedModels` contributes nothing
— while the field's declared type still names `R_x`, and `R_x` is not among
the names declared anywhere in the output.  The claimed "empty composite
type" is never emitted. -/
theorem C3_counterexample :
    nestedModels [SchemaField.mk "x".toList "object".toList "dx".toList true [] []]
        "R".toList = []
      ∧ getFieldType (SchemaField.mk "x".toList "object".toList "dx".toList true [] [])
          "R".toList = "R_x".toList
      ∧ ((allDecls [SchemaField.mk "x".toList "object".toList "dx".toList true [] []]
          "R".toList).map Prod.fst).contains "R_x".toList = false := by
  decide

/-- C3 amended: for a field of kind `object`/`array` whose children list is
absent or empty, compile does not fail, but it degrades by emitting no
composite type for that field at all, while the field definition still
declares the type `{scope}_{key}` (objects) or
`List[{scope}_{key}_item]` (arrays), names the output never defines. -/
theorem C3_childless_composite_emits_no_component (parent k d : Str) (t : Str) (r : Bool)
    (hk : t = "object".toList ∨ t = "array".toList) :
    nestedModels [SchemaField.mk k t d r [] []] parent = []
      ∧ getFieldType (SchemaField.mk k t d r [] []) parent
          = (if t = "object".toList then parent ++ "_".toList ++ k
             else "List[".toList ++ parent ++ "_".toList ++ k ++ "_item]".toList) := by
  constructor
  · simp [nestedModels, fieldModels, truthy]
  · rcases hk with rfl | rfl
    · simp [getFieldType, SchemaField.enum_values, SchemaField.ftype, SchemaField.key, truthy]
    · simp [getFieldType, SchemaField.enum_values, SchemaField.ftype, SchemaField.key, truthy]

/-- Witness for the amended C3 at the concrete object field `x`. -/
theorem C3_childless_composite_emits_no_component_witness :
    ("object".toList = "object".toList ∨ "object".toList = "array".toList)
      ∧ (nestedModels [SchemaField.mk "x".toList "object".toList "dx".toList true [] []]
            "R".toList = []
          ∧ getFieldType (SchemaField.mk "x".toList "object".toList "dx".toList true [] [])
              "R".toList
            = (if "object".toList = "object".toList then "R".toList ++ "_".toList ++ "x".toList
               else "List[".toList ++ "R".toList ++ "_".toList ++ "x".toList
                 ++ "_item]".toList)) :=
  ⟨Or.inl rfl,
   C3_childless_composite_emits_no_component "R".toList "x".toList "dx".toList
     "object".toList true (Or.inl rfl)⟩

lemma escape_description_lexes (d : Str) :
    litBodyOk '"' (escape_description d) = true := by
  rw [escape_description_eq_core, escapeCore_eq_join]
  induction d with
  | nil => rfl
  | cons x xs ih =>
    simp only [List.map_cons, List.flatten_cons]
    by_cases h1 : x = '\\'
    · subst h1; exact ih
    · by_cases h2 : x = '"'
      · subst h2; exact ih
      · by_cases h3 : x = '\n'
        · subst h3; exact ih
        · by_cases h4 : x = '\r'
          · subst h4; exact ih
          · by_cases h5 : x = '\t'
            · subst h5; exact ih
            · rw [show escChar x = [x] from by simp [escChar, h1, h2, h3, h4, h5]]
              rw [List.singleton_append, litBodyOk.eq_def]
              dsimp only
              rw [if_neg h1,
                if_neg (fun h => by rcases h with h | h | h
                                    exacts [h2 h, h3 h, h4 h])]
              exact ih

lemma contains_of_mem {l : List Str} {x : Str} (h : x ∈ l) : l.contains x = true := by
  simpa [List.contains] using List.elem_iff.mpr h

lemma checkFF_append (d1 d2 : List (Str × List Str)) (pre : List Str) :
    checkFF pre (d1 ++ d2)
      = (checkFF pre d1 && checkFF (pre ++ d1.map Prod.fst) d2) := by
  induction d1 generalizing pre with
  | nil => simp [checkFF]
  | cons hd rest ih =>
    cases hd with
    | mk n refs =>
      simp [checkFF, ih, Bool.and_assoc, List.append_assoc]

lemma checkFF_mono (d : List (Str × List Str)) :
    ∀ (pre pre' : List Str), (∀ x ∈ pre, x ∈ pre') →
      checkFF pre d = true → checkFF pre' d = true := by
  induction d with
  | nil => intro pre pre' _ _; rfl
  | cons hd rest ih =>
    intro pre pre' hsub h
    cases hd with
    | mk n refs =>
      rw [checkFF] at h ⊢
      simp only [Bool.and_eq_true] at h
      rcases h with ⟨h1, h2⟩
      simp only [Bool.and_eq_true]
      refine ⟨?_, ?_⟩
      · rw [List.all_eq_true] at h1 ⊢
        intro rf hrf
        have hm : rf ∈ pre := by
          have := h1 rf hrf
          simpa [List.contains] using List.elem_iff.mp (by simpa [List.contains] using this)
        exact contains_of_mem (hsub rf hm)
      · refine ih (pre ++ [n]) (pre' ++ [n]) ?_ h2
        intro x hx
        rcases List.mem_append.mp hx with hx | hx
        · exact List.mem_append_left _ (hsub x hx)
        · exact List.mem_append_right _ hx

lemma wfList_mem : ∀ (l : List SchemaField), wfList l = true →
    ∀ c ∈ l, wfField c = true := by
  intro l hl c hc
  induction l with
  | nil => cases hc
  | cons f rest ih =>
    rw [wfList] at hl
    simp only [Bool.and_eq_true] at hl
    rcases hl with ⟨h1, h2⟩
    rcases List.mem_cons.mp hc with rfl | hc
    · exact h1
    · exact ih h2 hc

lemma truthy_false_iff {α : Type} (l : List α) : truthy l = false ↔ l = [] := by
  cases l <;> simp [truthy]

theorem synthRef_mem_fieldDecls (k t d : Str) (r : Bool) (ev : List Str)
    (cs : List SchemaField) (nm n : Str)
    (hwf : wfField (SchemaField.mk k t d r ev cs) = true)
    (h : synthRef (SchemaField.mk k t d r ev cs) nm = some n) :
    n ∈ (fieldDecls (SchemaField.mk k t d r ev cs) nm).map Prod.fst := by
  by_cases hev : truthy ev = true
  · simp_all [synthRef, fieldDecls, SchemaField.enum_values, SchemaField.key]
  · have hevF : truthy ev = false := Bool.of_not_eq_true hev
    by_cases hobj : t = "object".toList
    · subst hobj
      have hcs : truthy cs = true := by
        rw [wfField] at hwf
        simp only [Bool.and_eq_true] at hwf
        have h1 := hwf.1
        simpa using h1
      simp_all [synthRef, fieldDecls, getNestedModelName, SchemaField.enum_values,
        SchemaField.ftype, SchemaField.key]
    · by_cases harr : t = "array".toList
      · subst harr
        have hcs : truthy cs = true := by
          rw [wfField] at hwf
          simp only [Bool.and_eq_true] at hwf
          have h1 := hwf.1
          simpa using h1
        simp_all [synthRef, fieldDecls, getNestedModelName, SchemaField.enum_values,
          SchemaField.ftype, SchemaField.key]
      · simp_all [synthRef, SchemaField.enum_values, SchemaField.ftype]

theorem synthRef_mem_declsOf (cs : List SchemaField) (nm : Str) :
    ∀ c ∈ cs, wfField c = true →
      ∀ n, synthRef c nm = some n → n ∈ (declsOf cs nm).map Prod.fst := by
  induction cs with
  | nil => intro c hc; cases hc
  | cons f rest ih =>
    intro c hc hwf n h
    rw [declsOf, List.map_append]
    rcases List.mem_cons.mp hc with rfl | hc
    · cases c with
      | mk k t d r ev cs' =>
        exact List.mem_append_left _ (synthRef_mem_fieldDecls k t d r ev cs' nm n hwf h)
    · exact List.mem_append_right _ (ih c hc hwf n h)

theorem checkFF_declsOf : ∀ (fields : List SchemaField) (parent : Str) (pre : List Str),
    wfList fields = true → checkFF pre (declsOf fields parent) = true
  | [], _, _, _ => by simp [declsOf, checkFF]
  | (SchemaField.mk k t d r ev cs) :: rest, parent, pre, hwf => by
    rw [wfList] at hwf
    simp only [Bool.and_eq_true] at hwf
    obtain ⟨hwff, hwfrest⟩ := hwf
    have hwfcs : wfList cs = true := by
      rw [wfField] at hwff
      simp only [Bool.and_eq_true] at hwff
      exact hwff.2
    rw [declsOf, checkFF_append]
    simp only [Bool.and_eq_true]
    constructor
    · simp only [fieldDecls]
      rw [checkFF_append]
      simp only [Bool.and_eq_true]
      constructor
      · by_cases hev : truthy ev = true
        · simp [hev, checkFF]
        · simp [Bool.of_not_eq_true hev, checkFF]
      · by_cases hcond : (t = "object".toList ∨ t = "array".toList) ∧ truthy cs = true
        · rw [if_pos hcond, checkFF_append]
          simp only [Bool.and_eq_true]
          constructor
          · exact checkFF_declsOf cs _ _ hwfcs
          · simp only [checkFF, Bool.and_eq_true]
            refine ⟨?_, trivial⟩
            rw [List.all_eq_true]
            intro rf hrf
            obtain ⟨c, hc, hsc⟩ := List.mem_filterMap.mp hrf
            have hwfc := wfList_mem cs hwfcs c hc
            have hmem := synthRef_mem_declsOf cs
              (getNestedModelName (SchemaField.mk k t d r ev cs) parent) c hc hwfc rf hsc
            exact contains_of_mem (List.mem_append_right _ hmem)
        · rw [if_neg hcond]
          simp [checkFF]
    · exact checkFF_declsOf rest parent _ hwfrest

theorem names_nestedModels : ∀ (fields : List SchemaField) (parent : Str),
    (nestedModels fields parent).map ModelComponent.name
      = (declsOf fields parent).map Prod.fst
  | [], _ => rfl
  | (SchemaField.mk k t d r ev cs) :: rest, parent => by
    rw [nestedModels, declsOf]
    simp only [List.map_append]
    congr 1
    · simp only [fieldModels, fieldDecls, List.map_append]
      congr 1
      · by_cases hev : truthy ev = true
        · simp [hev, generateEnumModel, SchemaField.key]
        · simp [Bool.of_not_eq_true hev]
      · by_cases hcond : (t = "object".toList ∨ t = "array".toList) ∧ truthy cs = true
        · rw [if_pos hcond, if_pos hcond]
          simp only [List.map_append]
          congr 1
          exact names_nestedModels cs _
        · rw [if_neg hcond, if_neg hcond]
          rfl
    · exact names_nestedModels rest parent

/-- C2 counterexample: for an `array` field with no children, the output
declares only the root type while the root's field definition references the
item type `R_xs_item`, which is declared nowhere — the output is not free of
dangling references, refuting the claim for arbitrary FieldSpec lists. -/
theorem C2_counterexample :
    allDecls [SchemaField.mk "xs".toList "array".toList "d".toList true [] []] "R".toList
      = [("R".toList, ["R_xs_item".toList])]
      ∧ checkFF []
          (allDecls [SchemaField.mk "xs".toList "array".toList "d".toList true [] []]
            "R".toList) = false := by
  decide

/-- C2 amended: provided every `object`/`array` field (at any depth) has a
non-empty children list, the compiled output is free of forward references —
scanning the emitted declarations in order, every synthesized type name a
declaration references is declared strictly earlier (hence also declared
somewhere) — the structural declaration skeleton names exactly the emitted
components, and the source text is the import preamble, the nested
components in order, and the root composite type last. -/
theorem C2_output_forward_reference_free (fields : List SchemaField) (rootName : Str)
    (hwf : wfList fields = true) :
    checkFF [] (allDecls fields rootName) = true
      ∧ (nestedModels fields rootName).map ModelComponent.name
          = (declsOf fields rootName).map Prod.fst
      ∧ generate_pydantic_model_code fields rootName
          = List.intercalate "\n\n".toList
              (IMPORTS_TEMPLATE
                :: (nestedModels fields rootName).map ModelComponent.code
                ++ [generateMainModel fields rootName]) := by
  refine ⟨?_, names_nestedModels fields rootName, rfl⟩
  rw [allDecls, checkFF_append]
  simp only [Bool.and_eq_true]
  refine ⟨checkFF_declsOf fields rootName [] hwf, ?_⟩
  simp only [checkFF, Bool.and_eq_true]
  refine ⟨?_, trivial⟩
  rw [List.all_eq_true]
  intro rf hrf
  obtain ⟨c, hc, hsc⟩ := List.mem_filterMap.mp hrf
  have hmem := synthRef_mem_declsOf fields rootName c hc (wfList_mem fields hwf c hc) rf hsc
  exact contains_of_mem (List.mem_append_right _ hmem)

/-- Witness for the amended C2 at a two-field schema with a nested object and
an enum field. -/
theorem C2_output_forward_reference_free_witness :
    wfList [SchemaField.mk "e".toList "string".toList "de".toList false
        ["u".toList, "v".toList] [],
      SchemaField.mk "o".toList "object".toList "do".toList true []
        [SchemaField.mk "a".toList "int".toList "da".toList true [] []]] = true
      ∧ (checkFF [] (allDecls [SchemaField.mk "e".toList "string".toList "de".toList false
            ["u".toList, "v".toList] [],
          SchemaField.mk "o".toList "object".toList "do".toList true []
            [SchemaField.mk "a".toList "int".toList "da".toList true [] []]]
            "R".toList) = true
        ∧ (nestedModels [SchemaField.mk "e".toList "string".toList "de".toList false
              ["u".toList, "v".toList] [],
            SchemaField.mk "o".toList "object".toList "do".toList true []
              [SchemaField.mk "a".toList "int".toList "da".toList true [] []]]
              "R".toList).map ModelComponent.name
            = (declsOf [SchemaField.mk "e".toList "string".toList "de".toList false
                ["u".toList, "v".toList] [],
              SchemaField.mk "o".toList "object".toList "do".toList true []
                [SchemaField.mk "a".toList "int".toList "da".toList true [] []]]
                "R".toList).map Prod.fst
        ∧ generate_pydantic_model_code [SchemaField.mk "e".toList "string".toList "de".toList false
              ["u".toList, "v".toList] [],
            SchemaField.mk "o".toList "object".toList "do".toList true []
              [SchemaField.mk "a".toList "int".toList "da".toList true [] []]]
              "R".toList
            = List.intercalate "\n\n".toList
                (IMPORTS_TEMPLATE
                  :: (nestedModels [SchemaField.mk "e".toList "string".toList "de".toList false
                        ["u".toList, "v".toList] [],
                      SchemaField.mk "o".toList "object".toList "do".toList true []
                        [SchemaField.mk "a".toList "int".toList "da".toList true [] []]]
                        "R".toList).map ModelComponent.code
                  ++ [generateMainModel [SchemaField.mk "e".toList "string".toList "de".toList false
                        ["u".toList, "v".toList] [],
                      SchemaField.mk "o".toList "object".toList "do".toList true []
                        [SchemaField.mk "a".toList "int".toList "da".toList true [] []]]
                        "R".toList])) :=
  ⟨by decide,
   C2_output_forward_reference_free
     [SchemaField.mk "e".toList "string".toList "de".toList false
        ["u".toList, "v".toList] [],
      SchemaField.mk "o".toList "object".toList "do".toList true []
        [SchemaField.mk "a".toList "int".toList "da".toList true [] []]]
     "R".toList (by decide)⟩

/-- C5 counterexample: a single load on an empty `sys.modules` leaves the
process-wide module table non-empty — `load_schema_model` registers the
module under `schema_{id}` (line `sys.modules[spec.name] = module`), so
loading does mutate a process-wide symbol table shared across loads. -/
theorem C5_counterexample :
    ((load_schema_model
        (create_schema ⟨[], []⟩ "N".toList "d".toList
          [SchemaField.mk "a".toList "string".toList "da".toList true [] []]
          "i-1".toList "t".toList).1
        [] "i-1".toList).2).map Prod.fst = ["schema_i-1".toList]
      ∧ ¬(["schema_i-1".toList] = ([] : List Str)) := by
  decide

/-- C5 amended: the value a load returns is computed from the freshly
executed module alone — it is independent of the prior contents of
`sys.modules`, so the materialized types of concurrent loads cannot leak
into each other through it — but the load does mutate the process-wide
`sys.modules` table: when both artifacts exist it writes the fresh module
under `schema_{id}` (a key injective in the id, so loads of distinct ids
touch distinct keys), and it leaves the table unchanged only when the load
fails with 404. -/
theorem C5_load_isolated_result_but_registry_mutated (st : Storage) (sm : SysModules)
    (schemaId : Str) :
    (load_schema_model st sm schemaId).1 = (load_schema_model st [] schemaId).1
      ∧ (∀ m, lookupKey st.progs schemaId = some m →
          (lookupKey st.metas schemaId).isSome = true →
          (load_schema_model st sm schemaId).2
            = setKey sm ("schema_".toList ++ schemaId) m)
      ∧ ((lookupKey st.progs schemaId).isSome = false
            ∨ (lookupKey st.metas schemaId).isSome = false →
          (load_schema_model st sm schemaId).2 = sm)
      ∧ (∀ id2 : Str, "schema_".toList ++ schemaId = "schema_".toList ++ id2 →
          schemaId = id2) := by
  refine ⟨?_, ?_, ?_, ?_⟩
  · cases hp : lookupKey st.progs schemaId with
    | none => simp [load_schema_model, hp]
    | some m =>
      cases hm : lookupKey st.metas schemaId with
      | none => simp [load_schema_model, hp, hm]
      | some meta =>
        simp only [load_schema_model, hp, hm]
        cases execModule m with
        | error e => rfl
        | ok syms =>
          dsimp only
          cases getattrLast syms
              (meta.name ++ "_".toList ++ normalizeId schemaId) <;> rfl
  · intro m hp hm
    cases hm2 : lookupKey st.metas schemaId with
    | none => rw [hm2] at hm; cases hm
    | some meta =>
      simp only [load_schema_model, hp, hm2]
      cases execModule m with
      | error e => rfl
      | ok syms =>
        dsimp only
        cases getattrLast syms
            (meta.name ++ "_".toList ++ normalizeId schemaId) <;> rfl
  · intro h
    rcases h with h | h
    · cases hp : lookupKey st.progs schemaId with
      | none => simp [load_schema_model, hp]
      | some m => rw [hp] at h; cases h
    · cases hm : lookupKey st.metas schemaId with
      | none =>
        cases hp : lookupKey st.progs schemaId with
        | none => simp [load_schema_model, hp]
        | some m => simp [load_schema_model, hp, hm]
      | some meta => rw [hm] at h; cases h
  · intro id2 h
    exact List.append_cancel_left h

/-- Witness for the amended C5 at a concrete one-schema store, discharging
the hypothesis of each conditional conjunct. -/
theorem C5_load_isolated_result_but_registry_mutated_witness :
    (load_schema_model
        (create_schema ⟨[], []⟩ "N".toList "d".toList
          [SchemaField.mk "a".toList "string".toList "da".toList true [] []]
          "i-2".toList "t".toList).1
        [] "i-2".toList).2
      = setKey [] ("schema_".toList ++ "i-2".toList)
          ⟨[SchemaField.mk "a".toList "string".toList "da".toList true [] []],
           "N".toList ++ "_".toList ++ normalizeId "i-2".toList,
           generate_pydantic_model_code
             [SchemaField.mk "a".toList "string".toList "da".toList true [] []]
             ("N".toList ++ "_".toList ++ normalizeId "i-2".toList)⟩ :=
  (C5_load_isolated_result_but_registry_mutated
      (create_schema ⟨[], []⟩ "N".toList "d".toList
        [SchemaField.mk "a".toList "string".toList "da".toList true [] []]
        "i-2".toList "t".toList).1
      [] "i-2".toList).2.1 _ rfl rfl

lemma lookupKey_erase {α : Type} (l : List (Str × α)) (k : Str) :
    lookupKey (eraseKey l k) k = none := by
  induction l with
  | nil => rfl
  | cons p rest ih =>
    cases p with
    | mk k' v =>
      by_cases hk : k' = k
      · simpa [eraseKey, hk] using ih
      · simpa [eraseKey, lookupKey, hk] using ih

/-- C6: deleting a schema removes both persisted artifacts, a subsequent
load of that id fails with the 404 NotFound error, and in general load
fails with that error whenever either artifact is absent.
`delete_schema` itself is modelled from the spec (its body is not among the
source files; only its caller in app/main.py is). -/
theorem C6_delete_then_load_not_found (st : Storage) (sm : SysModules) (schemaId : Str) :
    lookupKey (delete_schema st schemaId).progs schemaId = none
      ∧ lookupKey (delete_schema st schemaId).metas schemaId = none
      ∧ (load_schema_model (delete_schema st schemaId) sm schemaId).1
          = Except.error ⟨404, "Schema not found: ".toList ++ schemaId⟩
      ∧ (∀ st2 : Storage,
          lookupKey st2.progs schemaId = none ∨ lookupKey st2.metas schemaId = none →
          (load_schema_model st2 sm schemaId).1
            = Except.error ⟨404, "Schema not found: ".toList ++ schemaId⟩) := by
  refine ⟨lookupKey_erase st.progs schemaId, lookupKey_erase st.metas schemaId, ?_, ?_⟩
  · simp [load_schema_model, delete_schema, lookupKey_erase]
  · intro st2 h
    rcases h with h | h
    · simp [load_schema_model, h]
    · cases hp : lookupKey st2.progs schemaId with
      | none => simp [load_schema_model, hp]
      | some m => simp [load_schema_model, hp, h]

/-- Witness for C6: a store that never contained id `b` satisfies the
either-artifact-absent hypothesis and load indeed returns the 404 error. -/
theorem C6_delete_then_load_not_found_witness :
    (lookupKey (Storage.mk [] []).progs "b".toList = none
        ∨ lookupKey (Storage.mk [] []).metas "b".toList = none)
      ∧ (load_schema_model (Storage.mk [] []) [] "b".toList).1
          = Except.error ⟨404, "Schema not found: ".toList ++ "b".toList⟩ :=
  ⟨Or.inl rfl,
   (C6_delete_then_load_not_found (Storage.mk [] []) [] "b".toList).2.2.2
     (Storage.mk [] []) (Or.inl rfl)⟩

/-- C10: when both `schema_id` and `fields` are absent from an extraction
request, `extract_information` fails with the 400 client error "Either
schema_id or fields must be provided", leaving `sys.modules` untouched; the
result is the same for every extraction collaborator (which is therefore
never invoked), and the function has no storage write at all. -/
theorem C10_extract_neither_schema_nor_fields (st : Storage) (sm : SysModules)
    (text api_key tempId : Str) (collab : PyVal → Str → Except HErr (List Str)) :
    extract_information st sm ⟨text, none, none, api_key⟩ tempId collab
      = (Except.error ⟨400, "Either schema_id or fields must be provided".toList⟩, sm) := by
  simp [extract_information, truthyOptStr, truthyOptFields]
